import Mathlib

/-!
Verification of the mesh-file ingestion pipeline of t8code
(src/src/t8_cmesh/t8_cmesh_readmshfile.c).

The file stream is modelled as a list of significant lines (the line
reader has already removed comment and blank lines); a line is a list
of whitespace-delimited tokens.  Numeric literals are modelled as
integers: the code only ever copies coordinate values, never computes
with them, so the numeric payload is opaque to every property below.
Machine integers (long, t8_locidx_t, t8_gloidx_t) are modelled as Int;
the code asserts against conversion overflow and none of the
properties below depends on wrap-around.
-/

/-- A whitespace-delimited token of an input line: either a token that
parses as an integer (and hence also as a floating point number), or a
token that parses as neither. -/
inductive Token where
  | int (z : Int)
  | str (s : String)
deriving DecidableEq

/-- A significant input line, as delivered by t8_cmesh_msh_read_next_line. -/
abbrev Line := List Token

/-- The t8code element classes, in the enumeration order of t8_eclass_t
(T8_ECLASS_ZERO = VERTEX, then LINE, QUAD, TRIANGLE, HEX, TET, PRISM,
PYRAMID).  The sentinel T8_ECLASS_COUNT is modelled as Option.none
wherever the C code stores it in a table. -/
inductive Eclass where
  | vertex
  | line
  | quad
  | triangle
  | hex
  | tet
  | prism
  | pyramid
deriving DecidableEq

/-- Look-up table translating the gmsh element type code to a t8code
element class (t8_cmesh_readmshfile.c lines 35-50).  Index 0 and
indices 8..14 hold T8_ECLASS_COUNT, modelled as none. -/
def t8_msh_element_type_to_eclass : List (Option Eclass) :=
  [none,
   some .line,
   some .triangle,
   some .quad,
   some .tet,
   some .hex,
   some .prism,
   some .pyramid,
   none, none, none, none, none, none, none,
   some .vertex]

/-- Look-up table translating the msh file vertex number to the t8code
vertex number (t8_cmesh_readmshfile.c lines 54-64).  The C arrays are
zero padded to length 8; entries beyond the listed initializers are 0,
reflected below by reading the table with getD default 0. -/
def t8_msh_element_vertex_to_t8_vertex_num : Eclass → List Nat
  | .vertex => [0]
  | .line => [0, 1]
  | .quad => [0, 1, 3, 2]
  | .triangle => [0, 1, 2]
  | .hex => [0, 1, 5, 4, 2, 3, 7, 6]
  | .tet => [0, 1, 2, 3]
  | .prism => [0, 1, 2, 3, 4, 5, 8]
  | .pyramid => [0, 1, 3, 2, 4]

/-- Reading the vertex permutation table: entry i of the row of class c,
with the C zero padding for indices beyond the initializer list. -/
def t8_vertex_num (c : Eclass) (i : Nat) : Nat :=
  (t8_msh_element_vertex_to_t8_vertex_num c).getD i 0

/-- Modelled from the spec: t8_eclass_num_vertices (t8_eclass.c is not
under src/).  Number of vertices of each element class. -/
def t8_eclass_num_vertices : Eclass → Nat
  | .vertex => 1
  | .line => 2
  | .quad => 4
  | .triangle => 3
  | .hex => 8
  | .tet => 4
  | .prism => 6
  | .pyramid => 5

/-- Modelled from the spec: t8_eclass_to_dimension (t8_eclass.c is not
under src/).  Topological dimension of each element class. -/
def t8_eclass_to_dimension : Eclass → Int
  | .vertex => 0
  | .line => 1
  | .quad => 2
  | .triangle => 2
  | .hex => 3
  | .tet => 3
  | .prism => 3
  | .pyramid => 3

/-- A node record as stored in the node hash table
(t8_msh_file_node_t): the external index and the three coordinates. -/
structure MshNode where
  index : Int
  coordinates : Int × Int × Int
deriving DecidableEq

/-- Hash value of a node (t8_cmesh_readmshfile.c lines 128-142): the
node index modulo the stored total number of nodes.  The C operator %
on signed integers is truncated remainder, Int.tmod. -/
def t8_msh_file_node_hash (index num_nodes : Int) : Int :=
  Int.tmod index num_nodes

/-- The node hash table.  Modelled from the spec: sc_hash_t (from the
external libsc library) is a hash map whose hash context is a pointer
to the node count read from the section header; records are kept in
insertion order inside buckets. -/
structure NodeTable where
  num_nodes : Int
  records : List MshNode
deriving DecidableEq

/-- The bucket computation every table operation performs: the hash of
the probed index with the table's stored node count as divisor. -/
def node_bucket (t : NodeTable) (index : Int) : Int :=
  t8_msh_file_node_hash index t.num_nodes

/-- Modelled from the spec: sc_hash_insert_unique.  Returns true and
the extended table if no record with the same index is present
(t8_msh_file_node_compare compares indices only); returns false and
the unchanged table otherwise. -/
def sc_hash_insert_unique (t : NodeTable) (n : MshNode) : Bool × NodeTable :=
  if t.records.any (fun r => r.index == n.index) then (false, t)
  else (true, { t with records := t.records ++ [n] })

/-- Modelled from the spec: sc_hash_lookup.  Finds the record whose
index equals the probed index; the search is over the bucket selected
by node_bucket. -/
def sc_hash_lookup (t : NodeTable) (index : Int) : Option MshNode :=
  (t.records.filter (fun r => node_bucket t r.index == node_bucket t index)).find?
    (fun r => r.index == index)

/-- The section search of t8_msh_file_read_nodes and
t8_cmesh_msh_file_read_eles: skip lines until one whose first
whitespace-delimited word equals the marker; return the stream
position just after the marker line.  At end of file without a match
the C code falls through with a stale line buffer and fails shortly
after on that buffer; this unreachable-for-valid-input path is
modelled as none. -/
def findSection (marker : String) : List Line → Option (List Line)
  | [] => none
  | l :: rest =>
    match l with
    | .str s :: _ => if s = marker then some rest else findSection marker rest
    | _ => findSection marker rest

/-- Parsing the first token of a line as a long integer, as
sscanf with a single integer conversion does. -/
def headIntToken : Line → Option Int
  | .int z :: _ => some z
  | _ => none

/-- Parsing a node line (t8_cmesh_readmshfile.c line 227): sscanf with
four conversions succeeds when the first four tokens are numeric and
the first is an integer; additional trailing tokens are ignored. -/
def parseNodeLine : Line → Option (Int × Int × Int × Int)
  | .int i :: .int x :: .int y :: .int z :: _ => some (i, x, y, z)
  | _ => none

/-- Outcome of t8_msh_file_read_nodes.  ok returns the populated table
together with the remaining stream; fail models the die_node exit
(return NULL) and records whether the hash table and the node mempool
are still live after the call; assertAbort models a failing T8_ASSERT
(fatal in an assertion-enabled build). -/
inductive NodeReadResult where
  | ok (table : NodeTable) (rest : List Line)
  | fail (tableSurvives poolSurvives : Bool)
  | assertAbort
deriving DecidableEq

/-- The node reading loop (t8_cmesh_readmshfile.c lines 215-244): for
each of the expected node lines, read the next line (end of input is a
read error taking the die_node exit, which destroys the table and the
pool), parse it as index plus three coordinates (fewer than four
conversions takes the die_node exit), and insert the record into the
hash table; a duplicate index makes sc_hash_insert_unique return
false, which fails the T8_ASSERT on the return value. -/
def readNodesLoop (t : NodeTable) : Nat → List Line → NodeReadResult
  | 0, rest => .ok t rest
  | _ + 1, [] => .fail false false
  | n + 1, l :: rest =>
    match parseNodeLine l with
    | none => .fail false false
    | some (i, x, y, z) =>
      match sc_hash_insert_unique t ⟨i, (x, y, z)⟩ with
      | (inserted, tNew) =>
        if inserted then readNodesLoop tNew n rest
        else .assertAbort

/-- t8_msh_file_read_nodes (t8_cmesh_readmshfile.c lines 163-263):
seek the section marker, read the node count from the next line (a
line whose first token is not an integer takes the die_node exit
before anything is allocated), create the pool and the table with the
count as hash context, then run the reading loop; the loop executes
max(count, 0) iterations since the loop variable is compared with a
signed count. -/
def t8_msh_file_read_nodes (file : List Line) : NodeReadResult :=
  match findSection "$Nodes" file with
  | none => .fail false false
  | some [] => .fail false false
  | some (countLine :: rest) =>
    match headIntToken countLine with
    | none => .fail false false
    | some n => readNodesLoop ⟨n, []⟩ n.toNat rest

/-- The check of the element type code (t8_cmesh_readmshfile.c lines
330-339): a code above T8_NUM_GMSH_ELEM_CLASSES = 15 or below 0, or
one whose table entry is the sentinel T8_ECLASS_COUNT, takes the
die_ele exit; otherwise the table entry is the element class. -/
def gmshClassOf (ty : Int) : Option Eclass :=
  if ty > 15 || ty < 0 then none
  else t8_msh_element_type_to_eclass.getD ty.toNat none

/-- The tree-vertex staging buffer: the local C array
double tree_vertices[24], uninitialized at function entry (none) and
retaining its contents across loop iterations. -/
abbrev Buf := Nat → Option Int

/-- The buffer at function entry: every slot uninitialized. -/
def initBuf : Buf := fun _ => none

/-- One coordinate write of the vertex loop (t8_cmesh_readmshfile.c
lines 375-377): the three components of a node's coordinates are
stored at offsets 3p, 3p+1, 3p+2 of the staging buffer, where p is the
translated t8code vertex number. -/
def writeNode (b : Buf) (p : Nat) (co : Int × Int × Int) : Buf :=
  fun k =>
    if k = 3 * p then some co.1
    else if k = 3 * p + 1 then some co.2.1
    else if k = 3 * p + 2 then some co.2.2
    else b k

/-- The vertex resolution loop (t8_cmesh_readmshfile.c lines 370-378),
processing file-order slots 0..n-1 in increasing order: look the i-th
node index up in the table and write its coordinates at the slot given
by the vertex permutation.  The C code does not check the return value
of sc_hash_lookup; on a missing index it dereferences the unset
found_node pointer, so a failed lookup yields none (undefined
behaviour), not an error exit. -/
def elementVertexLoop (table : NodeTable) (c : Eclass) (idxs : List Int)
    (buf : Buf) : Nat → Option Buf
  | 0 => some buf
  | n + 1 =>
    match elementVertexLoop table c idxs buf n with
    | none => none
    | some b =>
      match sc_hash_lookup table (idxs.getD n 0) with
      | none => none
      | some nd => some (writeNode b (t8_vertex_num c n) nd.coordinates)

/-- One tree of the coarse mesh: the identifier it was registered
under, its element class, and the 3 * vertex_count coordinate entries
copied out of the staging buffer by t8_cmesh_set_tree_vertices. -/
structure MshTree where
  id : Int
  eclass : Eclass
  vertices : List (Option Int)
deriving DecidableEq

/-- Modelled from the spec: the coarse mesh container (t8_cmesh.c is
not under src/) accumulates registered trees; finalize marks it
committed. -/
structure Cmesh where
  trees : List MshTree
  committed : Bool
deriving DecidableEq

/-- Outcome of reading the node indices of one element line
(t8_cmesh_readmshfile.c lines 357-367).  fail models the die_ele exit
(sscanf matched a token that is not an integer); ubEnd models running
out of tokens, where the C code passes a NULL pointer to strsep or
strcmp (undefined behaviour, or a failing T8_ASSERT in a debug
build). -/
inductive IdxRead where
  | ok (idxs : List Int)
  | fail
  | ubEnd
deriving DecidableEq

/-- Reading the per-element node indices: one integer token per
expected vertex. -/
def readNodeIndices : List Token → Nat → IdxRead
  | _, 0 => .ok []
  | [], _ + 1 => .ubEnd
  | .str _ :: _, _ + 1 => .fail
  | .int z :: rest, n + 1 =>
    match readNodeIndices rest n with
    | .ok idxs => .ok (z :: idxs)
    | .fail => .fail
    | .ubEnd => .ubEnd

/-- Processing one dimension-matching element (t8_cmesh_readmshfile.c
lines 345, 370-381): run the vertex loop on the staging buffer, then
register a tree whose vertex array is the copy of the first
3 * vertex_count buffer entries, under the current tree counter. -/
def processDimElement (table : NodeTable) (c : Eclass) (idxs : List Int)
    (buf : Buf) (tid : Int) : Option (MshTree × Buf) :=
  match elementVertexLoop table c idxs buf (t8_eclass_num_vertices c) with
  | none => none
  | some b =>
    some (⟨tid, c, (List.range (3 * t8_eclass_num_vertices c)).map b⟩, b)

/-- Outcome of t8_cmesh_msh_file_read_eles.  ok returns 0 with the
populated (uncommitted) mesh; err models the die_ele exit, which
destroys the cmesh through its local handle and returns -1; ub marks a
path on which the C code reads unset memory or passes NULL to a libc
function (unchecked sscanf of the element header, token exhaustion,
or an unchecked failed node lookup). -/
inductive EleResult where
  | ok (cmesh : Cmesh)
  | err
  | ub
deriving DecidableEq

/-- The element loop (t8_cmesh_readmshfile.c lines 316-385), iterating
the parsed element count times.  Running out of lines is a checked
read error taking the die_ele exit.  The header sscanf reads and
discards the element number, then reads the type code and the tag
count; if the first three tokens are not integers the C code continues
with unset (first iteration) or stale variables, modelled as ub.  An
unsupported type code takes the die_ele exit.  A dimension-matching
element skips 3 + num_tags tokens (exhaustion during the skip passes
NULL to strsep, modelled as ub), reads its node indices, resolves and
writes its vertices, and advances the tree counter; other elements are
skipped without consuming an identifier. -/
def elesLoop (table : NodeTable) (dim : Int) :
    Nat → List Line → Int → List MshTree → Buf → EleResult
  | 0, _, _, trees, _ => .ok ⟨trees, false⟩
  | _ + 1, [], _, _, _ => .err
  | m + 1, l :: rest, tc, trees, buf =>
    match l with
    | .int _ :: .int ty :: .int ntags :: _ =>
      match gmshClassOf ty with
      | none => .err
      | some c =>
        if t8_eclass_to_dimension c = dim then
          if l.length < (3 + ntags).toNat then .ub
          else
            match readNodeIndices (l.drop (3 + ntags).toNat)
                (t8_eclass_num_vertices c) with
            | .fail => .err
            | .ubEnd => .ub
            | .ok idxs =>
              match processDimElement table c idxs buf tc with
              | none => .ub
              | some (tree, bufNew) =>
                elesLoop table dim m rest (tc + 1) (trees ++ [tree]) bufNew
        else elesLoop table dim m rest tc trees buf
    | _ => .ub

/-- t8_cmesh_msh_file_read_eles (t8_cmesh_readmshfile.c lines
266-393): seek the element section marker, read the element count (a
count line that does not parse as an integer takes the die_ele exit),
then run the element loop on a fresh staging buffer with tree counter
0; the loop executes max(count, 0) iterations. -/
def t8_cmesh_msh_file_read_eles (file : List Line) (table : NodeTable)
    (dim : Int) : EleResult :=
  match findSection "$Elements" file with
  | none => .err
  | some [] => .err
  | some (countLine :: rest) =>
    match headIntToken countLine with
    | none => .err
    | some m => elesLoop table dim m.toNat rest 0 [] initBuf

/-- Outcome of t8_cmesh_from_msh_file.  null is the NULL return (only
taken when the file cannot be opened); committed is the success
return of the committed container; dangling marks the element-failure
path, on which the cmesh was destroyed inside
t8_cmesh_msh_file_read_eles through its by-value handle while the
orchestrator, ignoring the -1 return, commits and returns its stale
non-null handle; ub marks paths with undefined behaviour (a failed
node read leaves the mempool pointer NULL or already destroyed, and
the orchestrator unconditionally destroys it again). -/
inductive OrchResult where
  | null
  | committed (c : Cmesh)
  | dangling
  | ub
deriving DecidableEq

/-- t8_cmesh_from_msh_file (t8_cmesh_readmshfile.c lines 395-444):
open the file (none models fopen failure), read the nodes, initialize
the cmesh, read the elements, then destroy the node table and pool,
commit, and return the cmesh handle.  The return value of
t8_cmesh_msh_file_read_eles is ignored and the local cmesh handle is
returned in every case that reaches the end of the function. -/
def t8_cmesh_from_msh_file (file : Option (List Line)) (dim : Int) :
    OrchResult :=
  match file with
  | none => .null
  | some lines =>
    match t8_msh_file_read_nodes lines with
    | .assertAbort => .ub
    | .fail _ _ => .ub
    | .ok table rest =>
      match t8_cmesh_msh_file_read_eles rest table dim with
      | .ub => .ub
      | .err => .dangling
      | .ok cmesh => .committed { cmesh with committed := true }

/-- A structured node declaration, used to build well-formed node
lines: index and three coordinates. -/
def mkNodeLine (d : Int × Int × Int × Int) : Line :=
  [.int d.1, .int d.2.1, .int d.2.2.1, .int d.2.2.2]

/-- A structured element declaration, used to build well-formed
element lines. -/
structure EleDecl where
  elemNo : Int
  ty : Int
  tags : List Int
  nodes : List Int
deriving DecidableEq

/-- The element line of a structured element declaration: element
number, type code, tag count, the tags, then the node indices. -/
def mkEleLine (e : EleDecl) : Line :=
  .int e.elemNo :: .int e.ty :: .int (e.tags.length : Int) ::
    (e.tags.map .int ++ e.nodes.map .int)

/-- The dimension of the class an element declaration's type code maps
to, if the code is supported. -/
def eleDim (e : EleDecl) : Option Int :=
  (gmshClassOf e.ty).map t8_eclass_to_dimension

/-- Well-formedness of one element declaration with respect to a node
table and the requested dimension: the type code is supported, the
node list has exactly the class's vertex count, and, when the class
has the requested dimension, every referenced node is present in the
table. -/
def goodEle (table : NodeTable) (dim : Int) (e : EleDecl) : Bool :=
  match gmshClassOf e.ty with
  | none => false
  | some c =>
    e.nodes.length == t8_eclass_num_vertices c &&
      (t8_eclass_to_dimension c != dim ||
        e.nodes.all (fun ix => (sc_hash_lookup table ix).isSome))

/-- Concrete input: a node section declaring nodes 1, 2, 3 followed by
an element section whose single triangle references the undeclared
node index 4. -/
def fileUndeclaredNode : List Line :=
  [[.str "$Nodes"], [.int 3],
   [.int 1, .int 0, .int 0, .int 0],
   [.int 2, .int 1, .int 0, .int 0],
   [.int 3, .int 0, .int 1, .int 0],
   [.str "$EndNodes"],
   [.str "$Elements"], [.int 1],
   [.int 1, .int 2, .int 0, .int 1, .int 2, .int 4],
   [.str "$EndElements"]]

/-- The node table produced by reading the node section of
fileUndeclaredNode, and the stream position after it. -/
def tableThreeNodes : NodeTable :=
  ⟨3, [⟨1, (0, 0, 0)⟩, ⟨2, (1, 0, 0)⟩, ⟨3, (0, 1, 0)⟩]⟩

/-- Concrete input: a valid node section followed by an element
section whose single element has the unsupported type code 8. -/
def fileBadEleType : List Line :=
  [[.str "$Nodes"], [.int 1],
   [.int 1, .int 0, .int 0, .int 0],
   [.str "$EndNodes"],
   [.str "$Elements"], [.int 1],
   [.int 1, .int 8, .int 0],
   [.str "$EndElements"]]

theorem vertex_num_lt (c : Eclass) :
    ∀ i, i < t8_eclass_num_vertices c →
      t8_vertex_num c i < t8_eclass_num_vertices c := by
  cases c <;> decide

theorem vertex_num_inj (c : Eclass) :
    ∀ i, i < t8_eclass_num_vertices c → ∀ j, j < t8_eclass_num_vertices c →
      t8_vertex_num c i = t8_vertex_num c j → i = j := by
  cases c <;> decide

theorem writeNode_ne (b : Buf) (p : Nat) (co : Int × Int × Int) (x : Nat)
    (h0 : x ≠ 3 * p) (h1 : x ≠ 3 * p + 1) (h2 : x ≠ 3 * p + 2) :
    writeNode b p co x = b x := by
  simp only [writeNode]
  rw [if_neg h0, if_neg h1, if_neg h2]

theorem writeNode_self (b : Buf) (p : Nat) (co : Int × Int × Int) :
    writeNode b p co (3 * p) = some co.1 ∧
    writeNode b p co (3 * p + 1) = some co.2.1 ∧
    writeNode b p co (3 * p + 2) = some co.2.2 := by
  refine ⟨?_, ?_, ?_⟩ <;> simp [writeNode]

theorem elementVertexLoop_spec (table : NodeTable) (c : Eclass)
    (idxs : List Int) (f : Nat → MshNode) :
    ∀ (n : Nat) (buf : Buf),
      (∀ i, i < n → sc_hash_lookup table (idxs.getD i 0) = some (f i)) →
      ∃ b, elementVertexLoop table c idxs buf n = some b ∧
        (∀ i, i < n →
          (∀ j, i < j → j < n → t8_vertex_num c j ≠ t8_vertex_num c i) →
          b (3 * t8_vertex_num c i) = some (f i).coordinates.1 ∧
          b (3 * t8_vertex_num c i + 1) = some (f i).coordinates.2.1 ∧
          b (3 * t8_vertex_num c i + 2) = some (f i).coordinates.2.2) := by
  intro n
  induction n with
  | zero =>
    intro buf _
    exact ⟨buf, rfl, fun i hi => absurd hi (Nat.not_lt_zero i)⟩
  | succ n ih =>
    intro buf hl
    obtain ⟨b, hb, hchar⟩ := ih buf (fun i hi => hl i (Nat.lt_succ_of_lt hi))
    refine ⟨writeNode b (t8_vertex_num c n) (f n).coordinates, ?_, ?_⟩
    · simp only [elementVertexLoop, hb, hl n (Nat.lt_succ_self n)]
    · intro i hi hinj
      rcases Nat.lt_succ_iff_lt_or_eq.mp hi with hlt | heq
      · have hne : t8_vertex_num c n ≠ t8_vertex_num c i :=
          hinj n hlt (Nat.lt_succ_self n)
        have h0 := writeNode_ne b (t8_vertex_num c n) (f n).coordinates
          (3 * t8_vertex_num c i) (by omega) (by omega) (by omega)
        have h1 := writeNode_ne b (t8_vertex_num c n) (f n).coordinates
          (3 * t8_vertex_num c i + 1) (by omega) (by omega) (by omega)
        have h2 := writeNode_ne b (t8_vertex_num c n) (f n).coordinates
          (3 * t8_vertex_num c i + 2) (by omega) (by omega) (by omega)
        have := hchar i hlt
          (fun j hij hj => hinj j hij (Nat.lt_succ_of_lt hj))
        exact ⟨h0.trans this.1, h1.trans this.2.1, h2.trans this.2.2⟩
      · subst heq
        exact writeNode_self b (t8_vertex_num c i) (f i).coordinates

theorem elementVertexLoop_isSome (table : NodeTable) (c : Eclass)
    (idxs : List Int) :
    ∀ (n : Nat) (buf : Buf),
      (∀ i, i < n → (sc_hash_lookup table (idxs.getD i 0)).isSome) →
      ∃ b, elementVertexLoop table c idxs buf n = some b := by
  intro n
  induction n with
  | zero => exact fun buf _ => ⟨buf, rfl⟩
  | succ n ih =>
    intro buf hl
    obtain ⟨b, hb⟩ := ih buf (fun i hi => hl i (Nat.lt_succ_of_lt hi))
    obtain ⟨nd, hnd⟩ := Option.isSome_iff_exists.mp (hl n (Nat.lt_succ_self n))
    exact ⟨writeNode b (t8_vertex_num c n) nd.coordinates,
      by simp only [elementVertexLoop, hb, hnd]⟩

theorem getD_map_range (m : Nat) (g : Nat → Option Int) (k : Nat)
    (h : k < m) : ((List.range m).map g).getD k none = g k := by
  rw [List.getD_eq_getElem?_getD, List.getElem?_map, List.getElem?_range h]
  rfl

/-- C9: for every supported element class, the first vertex_count
entries of its row in the vertex permutation table are a permutation
of 0..vertex_count-1, and every coordinate write of the vertex loop
lands inside the 3 * vertex_count entries of the tree vertex array. -/
theorem vertex_permutation_bijective :
    ∀ c : Eclass,
      ((List.range (t8_eclass_num_vertices c)).map (t8_vertex_num c)).Perm
        (List.range (t8_eclass_num_vertices c)) ∧
      ∀ i, i < t8_eclass_num_vertices c →
        3 * t8_vertex_num c i + 2 < 3 * t8_eclass_num_vertices c := by
  intro c
  cases c <;> exact ⟨by decide, by decide⟩

/-- Witness for vertex_permutation_bijective at the quad class and
file-order slot 2. -/
theorem vertex_permutation_bijective_witness :
    ((List.range 4).map (t8_vertex_num .quad)).Perm (List.range 4) ∧
      3 * t8_vertex_num .quad 2 + 2 < 3 * 4 :=
  ⟨(vertex_permutation_bijective .quad).1,
   (vertex_permutation_bijective .quad).2 2 (by decide)⟩

/-- C10: a file declaring zero nodes builds an empty node table whose
stored hash context is zero; the node hash is the index modulo the
node count (truncated remainder, as the C % operator), so every bucket
computation of a subsequent lookup on that table divides by zero. -/
theorem zero_node_count_builds_and_hash_divides_by_zero :
    t8_msh_file_read_nodes [[.str "$Nodes"], [.int 0]] =
      .ok ⟨0, []⟩ [] ∧
    (∀ i n : Int, t8_msh_file_node_hash i n = Int.tmod i n) ∧
    (∀ i : Int, node_bucket ⟨0, []⟩ i = t8_msh_file_node_hash i 0) := by
  refine ⟨by decide, fun i n => rfl, fun i => rfl⟩

/-- C8 counterexample: a node section whose count line parses to the
negative value -5 is accepted, returning an empty table that stores
the negative count, instead of a parse error. -/
theorem negative_node_count_accepted :
    t8_msh_file_read_nodes [[.str "$Nodes"], [.int (-5)]] =
      .ok ⟨-5, []⟩ [] ∧ (-5 : Int) < 0 := by
  exact ⟨by decide, by decide⟩

/-- C8 amended: the node-table build returns a parse error exactly
when the line after the node-section marker does not parse as an
integer; a negative parsed count is accepted and yields a successful
build with an empty table storing the negative count. -/
theorem node_count_line_check (countLine : Line) (rest : List Line) :
    (headIntToken countLine = none →
      t8_msh_file_read_nodes ([.str "$Nodes"] :: countLine :: rest) =
        .fail false false) ∧
    (∀ N : Int, headIntToken countLine = some N → N < 0 →
      t8_msh_file_read_nodes ([.str "$Nodes"] :: countLine :: rest) =
        .ok ⟨N, []⟩ rest) := by
  constructor
  · intro h
    simp [t8_msh_file_read_nodes, findSection, h]
  · intro N hN hneg
    have ht : N.toNat = 0 := Int.toNat_of_nonpos (le_of_lt hneg)
    simp [t8_msh_file_read_nodes, findSection, hN, ht, readNodesLoop]

/-- Witness for node_count_line_check: a count line whose first token
is not numeric makes the build fail. -/
theorem node_count_line_check_witness :
    t8_msh_file_read_nodes [[.str "$Nodes"], [.str "abc"]] =
      .fail false false :=
  (node_count_line_check [.str "abc"] []).1 (by decide)

/-- C7 counterexample: a node line with five whitespace-delimited
fields (one more than index, x, y, z) is accepted, not rejected. -/
theorem five_field_node_line_accepted :
    t8_msh_file_read_nodes
        [[.str "$Nodes"], [.int 1],
         [.int 7, .int 0, .int 0, .int 0, .str "x"]] =
      .ok ⟨1, [⟨7, (0, 0, 0)⟩]⟩ [] := by
  decide

/-- C4 counterexample: element type code 15 maps to the vertex class
of topological dimension 0, not a dimension 1..3 class, yet an element
line with this code is accepted: the build returns success and skips
the element rather than aborting. -/
theorem point_element_type_accepted :
    gmshClassOf 15 = some .vertex ∧
    t8_eclass_to_dimension .vertex = 0 ∧
    t8_cmesh_msh_file_read_eles
        [[.str "$Elements"], [.int 1], [.int 1, .int 15, .int 0, .int 1]]
        ⟨0, []⟩ 2 = .ok ⟨[], false⟩ := by
  refine ⟨by decide, by decide, by decide⟩

/-- C2: the element reader never checks the return value of
sc_hash_lookup; on the concrete file whose triangle references the
undeclared node index 4 it dereferences the unset found_node pointer
(undefined behaviour) instead of taking an error exit, and the
orchestrator consequently also runs into undefined behaviour rather
than returning a null result. -/
theorem undeclared_node_reference_is_ub :
    t8_cmesh_msh_file_read_eles
        [[.str "$EndNodes"], [.str "$Elements"], [.int 1],
         [.int 1, .int 2, .int 0, .int 1, .int 2, .int 4],
         [.str "$EndElements"]]
        tableThreeNodes 2 = .ub ∧
    t8_cmesh_from_msh_file (some fileUndeclaredNode) 2 = .ub := by
  refine ⟨by decide, by decide⟩

/-- C6: on the concrete file whose element section fails (unsupported
type code 8), t8_cmesh_msh_file_read_eles destroys the cmesh through
its by-value handle and returns -1, but the orchestrator ignores that
return value, commits the destroyed container and returns its stale
non-null handle instead of a null result. -/
theorem orchestrator_returns_dangling_on_element_failure :
    t8_cmesh_from_msh_file (some fileBadEleType) 2 = .dangling ∧
    OrchResult.dangling ≠ OrchResult.null := by
  refine ⟨by decide, by decide⟩

theorem any_index_eq_false {t : NodeTable} {ix : Int}
    (h : ix ∉ t.records.map MshNode.index) :
    (t.records.any (fun r => r.index == ix)) = false := by
  rw [List.any_eq_false]
  intro r hr
  simp only [beq_iff_eq]
  intro he
  exact h (he ▸ List.mem_map_of_mem MshNode.index hr)

theorem insert_fresh (t : NodeTable) (n : MshNode)
    (h : n.index ∉ t.records.map MshNode.index) :
    sc_hash_insert_unique t n =
      (true, { t with records := t.records ++ [n] }) := by
  simp only [sc_hash_insert_unique, any_index_eq_false h]
  rfl

theorem parseNodeLine_mk (d : Int × Int × Int × Int) :
    parseNodeLine (mkNodeLine d) = some (d.1, d.2.1, d.2.2.1, d.2.2.2) := rfl

theorem readNodesLoop_dup :
    ∀ (decls : List (Int × Int × Int × Int)) (t : NodeTable),
      (t.records.map MshNode.index).Nodup →
      ¬ (t.records.map MshNode.index ++ decls.map (fun d => d.1)).Nodup →
      readNodesLoop t decls.length (decls.map mkNodeLine) = .assertAbort := by
  intro decls
  induction decls with
  | nil =>
    intro t hnd hdup
    exact absurd (by simpa using hnd) hdup
  | cons d ds ih =>
    intro t hnd hdup
    by_cases hmem : d.1 ∈ t.records.map MshNode.index
    · have hins : sc_hash_insert_unique t
          (⟨d.1, (d.2.1, d.2.2.1, d.2.2.2)⟩ : MshNode) = (false, t) := by
        simp only [sc_hash_insert_unique]
        rw [if_pos]
        obtain ⟨r, hr, he⟩ := List.mem_map.mp hmem
        exact List.any_eq_true.mpr ⟨r, hr, by simp [he]⟩
      simp only [List.map_cons, List.length_cons, readNodesLoop,
        parseNodeLine_mk, hins]
      rfl
    · rw [List.map_cons, List.length_cons]
      show readNodesLoop t (ds.length + 1) (mkNodeLine d :: ds.map mkNodeLine)
          = .assertAbort
      simp only [readNodesLoop, parseNodeLine_mk,
        insert_fresh t (⟨d.1, (d.2.1, d.2.2.1, d.2.2.2)⟩ : MshNode) hmem]
      apply ih
      · simpa [List.nodup_append] using ⟨hnd, by simpa using hmem⟩
      · intro hcontra
        apply hdup
        have heq : (t.records ++
              [(⟨d.1, (d.2.1, d.2.2.1, d.2.2.2)⟩ : MshNode)]).map
            MshNode.index ++ ds.map (fun d => d.1)
            = t.records.map MshNode.index ++ (d :: ds).map (fun d => d.1) := by
          simp
        rwa [heq] at hcontra

/-- C5: a node section declaring two node lines with the same external
index makes the build abort (the failing T8_ASSERT on the return value
of sc_hash_insert_unique); no table is returned, so neither occurrence
is silently kept. -/
theorem duplicate_node_index_aborts
    (decls : List (Int × Int × Int × Int))
    (hdup : ¬ (decls.map (fun d => d.1)).Nodup) :
    t8_msh_file_read_nodes
        ([.str "$Nodes"] :: [.int (decls.length : Int)] ::
          decls.map mkNodeLine) = .assertAbort := by
  simp only [t8_msh_file_read_nodes, findSection, if_pos rfl, headIntToken,
    Int.toNat_natCast]
  exact readNodesLoop_dup decls ⟨(decls.length : Int), []⟩ (by simp)
    (by simpa using hdup)

/-- Witness for duplicate_node_index_aborts: two node lines with
index 1 abort the build. -/
theorem duplicate_node_index_aborts_witness :
    t8_msh_file_read_nodes
        ([.str "$Nodes"] :: [.int 2] ::
          [(1, 0, 0, 0), (1, 1, 1, 1)].map mkNodeLine) = .assertAbort :=
  duplicate_node_index_aborts [(1, 0, 0, 0), (1, 1, 1, 1)] (by decide)

theorem readNodesLoop_short_or_bad :
    ∀ {gs : List Line} {ds : List (Int × Int × Int × Int)},
      List.Forall₂ (fun l d => parseNodeLine l = some d) gs ds →
      ∀ (rest : List Line) (n : Nat) (t : NodeTable),
        (t.records.map MshNode.index ++ ds.map (fun d => d.1)).Nodup →
        gs.length < n →
        (rest = [] ∨ ∃ l rs, rest = l :: rs ∧ parseNodeLine l = none) →
        readNodesLoop t n (gs ++ rest) = .fail false false := by
  intro gs ds hpar
  induction hpar with
  | nil =>
    intro rest n t _ hlt hbad
    obtain ⟨m, rfl⟩ := Nat.exists_eq_succ_of_ne_zero (Nat.pos_iff_ne_zero.mp hlt)
    rcases hbad with rfl | ⟨l, rs, rfl, hl⟩
    · rfl
    · simp only [List.nil_append, readNodesLoop, hl]
  | @cons l d gs2 ds2 hld _ ih =>
    intro rest n t hnd hlt hbad
    obtain ⟨m, rfl⟩ : ∃ m, n = m + 1 :=
      ⟨n - 1, by omega⟩
    have hfresh : d.1 ∉ t.records.map MshNode.index := by
      have := (List.nodup_append.mp hnd).2.2
      intro hmem
      exact this hmem (by simp)
    obtain ⟨i, x, y, z⟩ := d
    show readNodesLoop t (m + 1) (l :: (gs2 ++ rest)) = .fail false false
    simp only [readNodesLoop, hld,
      insert_fresh t (⟨i, (x, y, z)⟩ : MshNode) hfresh]
    apply ih rest m _ _ (by simpa using hlt) hbad
    have heq : (t.records ++ [(⟨i, (x, y, z)⟩ : MshNode)]).map MshNode.index
        ++ ds2.map (fun d => d.1)
        = t.records.map MshNode.index
          ++ ((i, x, y, z) :: ds2).map (fun d => d.1) := by
      simp
    rw [heq]
    exact hnd

/-- C7 amended: the node-table build fails, destroying the hash table
and the node pool (nothing survives), whenever the expected node lines
run out before the declared count is reached or a node line with fewer
than four parseable fields is encountered, provided no duplicate index
aborts the build earlier; a node line with MORE than four fields is
accepted (see five_field_node_line_accepted), so only a shortage of
fields is an error. -/
theorem short_or_malformed_node_line_fails
    (n : Nat) (gs : List Line) (ds : List (Int × Int × Int × Int))
    (rest : List Line)
    (hpar : List.Forall₂ (fun l d => parseNodeLine l = some d) gs ds)
    (hnodup : (ds.map (fun d => d.1)).Nodup)
    (hlt : gs.length < n)
    (hbad : rest = [] ∨ ∃ l rs, rest = l :: rs ∧ parseNodeLine l = none) :
    t8_msh_file_read_nodes
        ([.str "$Nodes"] :: [.int (n : Int)] :: (gs ++ rest)) =
      .fail false false := by
  simp only [t8_msh_file_read_nodes, findSection, if_pos rfl, headIntToken,
    Int.toNat_natCast]
  exact readNodesLoop_short_or_bad hpar rest n ⟨(n : Int), []⟩
    (by simpa using hnodup) hlt hbad

/-- Witness for short_or_malformed_node_line_fails: one good node
line, then a three-field line, with a declared count of two. -/
theorem short_or_malformed_node_line_fails_witness :
    t8_msh_file_read_nodes
        ([.str "$Nodes"] :: [.int (2 : Int)] ::
          ([[.int 1, .int 0, .int 0, .int 0]] ++
            [[.int 2, .int 5, .int 5]])) = .fail false false :=
  short_or_malformed_node_line_fails 2 [[.int 1, .int 0, .int 0, .int 0]]
    [(1, 0, 0, 0)] [[.int 2, .int 5, .int 5]]
    (List.Forall₂.cons rfl List.Forall₂.nil) (by decide) (by decide)
    (Or.inr ⟨[.int 2, .int 5, .int 5], [], rfl, rfl⟩)

/-- C4 amended: the element type check accepts exactly the codes that
map to a supported first-order class, namely 1..7 (dimensions 1..3)
and 15 (the point class of dimension 0); every other code, including
negative ones, codes above 15, and codes 0 and 8..14 mapped to the
invalid sentinel, makes the build abort with an error. -/
theorem element_type_check (ty : Int) :
    ((gmshClassOf ty).isSome ↔ ((1 ≤ ty ∧ ty ≤ 7) ∨ ty = 15)) ∧
    (gmshClassOf ty = none →
      t8_cmesh_msh_file_read_eles
          [[.str "$Elements"], [.int 1], [.int 1, .int ty, .int 0]]
          ⟨0, []⟩ 2 = .err) := by
  constructor
  · by_cases hlo : ty < 0
    · have h : gmshClassOf ty = none := by
        simp only [gmshClassOf]
        rw [if_pos (by simp [hlo])]
      rw [h]
      simp only [Option.isSome_none, Bool.false_eq_true, false_iff]
      omega
    · by_cases hhi : ty > 15
      · have h : gmshClassOf ty = none := by
          simp only [gmshClassOf]
          rw [if_pos (by simp [hhi])]
        rw [h]
        simp only [Option.isSome_none, Bool.false_eq_true, false_iff]
        omega
      · have h0 : 0 ≤ ty := by omega
        have h15 : ty ≤ 15 := by omega
        interval_cases ty <;> decide
  · intro h
    simp [t8_cmesh_msh_file_read_eles, findSection, headIntToken, elesLoop, h]

/-- Witness for element_type_check at the unsupported code 8. -/
theorem element_type_check_witness :
    t8_cmesh_msh_file_read_eles
        [[.str "$Elements"], [.int 1], [.int 1, .int 8, .int 0]]
        ⟨0, []⟩ 2 = .err :=
  (element_type_check 8).2 (by decide)

/-- C1 amended: for every accepted element of class c whose node-index
lookups all succeed, the tree registered by the element processing
step holds, at vertex slot t8_vertex_num c i, the coordinate triple of
the node record found for the index listed at file-order slot i; for
the quad permutation [0,1,3,2] this puts the third-listed node at tree
slot 3 = t8_vertex_num quad 2, while tree slot 2 receives the node
listed fourth, contrary to the claim's example instance. -/
theorem element_vertices_follow_permutation
    (c : Eclass) (table : NodeTable) (idxs : List Int) (buf : Buf)
    (tid : Int) (f : Nat → MshNode)
    (hf : ∀ i, i < t8_eclass_num_vertices c →
        sc_hash_lookup table (idxs.getD i 0) = some (f i)) :
    ∃ tree b, processDimElement table c idxs buf tid = some (tree, b) ∧
      tree.eclass = c ∧ tree.id = tid ∧
      ∀ i, i < t8_eclass_num_vertices c →
        tree.vertices.getD (3 * t8_vertex_num c i) none =
            some (f i).coordinates.1 ∧
        tree.vertices.getD (3 * t8_vertex_num c i + 1) none =
            some (f i).coordinates.2.1 ∧
        tree.vertices.getD (3 * t8_vertex_num c i + 2) none =
            some (f i).coordinates.2.2 := by
  obtain ⟨b, hb, hchar⟩ :=
    elementVertexLoop_spec table c idxs f (t8_eclass_num_vertices c) buf hf
  refine ⟨⟨tid, c, (List.range (3 * t8_eclass_num_vertices c)).map b⟩, b,
    ?_, rfl, rfl, ?_⟩
  · simp only [processDimElement, hb]
  · intro i hi
    have hbnd := vertex_num_lt c i hi
    have hc := hchar i hi (fun j hij hj heq =>
      absurd (vertex_num_inj c j hj i hi heq) (Nat.ne_of_gt hij))
    refine ⟨?_, ?_, ?_⟩
    · rw [getD_map_range _ b _ (by omega)]
      exact hc.1
    · rw [getD_map_range _ b _ (by omega)]
      exact hc.2.1
    · rw [getD_map_range _ b _ (by omega)]
      exact hc.2.2

/-- Witness for element_vertices_follow_permutation: a quad whose four
node indices 1..4 resolve to distinct coordinate triples; in
particular, since t8_vertex_num quad 2 = 3 and t8_vertex_num quad 3 =
2, tree vertex slot 2 receives the coordinates of the node listed
fourth, and slot 3 those of the node listed third. -/
theorem element_vertices_follow_permutation_witness :
    ∃ tree b, processDimElement
        ⟨4, [⟨1, (10, 11, 12)⟩, ⟨2, (20, 21, 22)⟩,
             ⟨3, (30, 31, 32)⟩, ⟨4, (40, 41, 42)⟩]⟩
        .quad [1, 2, 3, 4] initBuf 0 = some (tree, b) ∧
      tree.eclass = .quad ∧ tree.id = 0 ∧
      ∀ i, i < t8_eclass_num_vertices .quad →
        tree.vertices.getD (3 * t8_vertex_num .quad i) none =
            some (10 * ((i : Int) + 1)) ∧
        tree.vertices.getD (3 * t8_vertex_num .quad i + 1) none =
            some (10 * ((i : Int) + 1) + 1) ∧
        tree.vertices.getD (3 * t8_vertex_num .quad i + 2) none =
            some (10 * ((i : Int) + 1) + 2) :=
  element_vertices_follow_permutation .quad
    ⟨4, [⟨1, (10, 11, 12)⟩, ⟨2, (20, 21, 22)⟩,
         ⟨3, (30, 31, 32)⟩, ⟨4, (40, 41, 42)⟩]⟩
    [1, 2, 3, 4] initBuf 0
    (fun i => ⟨(i : Int) + 1,
      (10 * ((i : Int) + 1), 10 * ((i : Int) + 1) + 1,
        10 * ((i : Int) + 1) + 2)⟩)
    (by decide)

theorem readNodeIndices_map (xs : List Int) :
    readNodeIndices (xs.map Token.int) xs.length = .ok xs := by
  induction xs with
  | nil => rfl
  | cons x xs ih => simp [readNodeIndices, ih]

theorem mkEleLine_drop (e : EleDecl) :
    (mkEleLine e).drop ((3 : Int) + (e.tags.length : Int)).toNat =
      e.nodes.map Token.int := by
  have hsplit : mkEleLine e =
      ([.int e.elemNo, .int e.ty, .int (e.tags.length : Int)] ++
        e.tags.map Token.int) ++ e.nodes.map Token.int := by
    simp [mkEleLine]
  rw [hsplit,
    show ((3 : Int) + (e.tags.length : Int)).toNat =
      ([Token.int e.elemNo, Token.int e.ty,
        Token.int (e.tags.length : Int)] ++ e.tags.map Token.int).length
      from by simp; omega,
    List.drop_left]

theorem mkEleLine_not_short (e : EleDecl) :
    ¬ ((mkEleLine e).length < ((3 : Int) + (e.tags.length : Int)).toNat) := by
  simp only [mkEleLine, List.length_cons, List.length_append,
    List.length_map]
  omega

theorem goodEle_spec {table : NodeTable} {dim : Int} {e : EleDecl}
    (h : goodEle table dim e = true) :
    ∃ c, gmshClassOf e.ty = some c ∧
      e.nodes.length = t8_eclass_num_vertices c ∧
      (t8_eclass_to_dimension c = dim → ∀ i, i < t8_eclass_num_vertices c →
        (sc_hash_lookup table (e.nodes.getD i 0)).isSome) := by
  unfold goodEle at h
  cases hcls : gmshClassOf e.ty with
  | none => rw [hcls] at h; exact absurd h (by simp)
  | some c =>
    rw [hcls] at h
    simp only [Bool.and_eq_true, beq_iff_eq, Bool.or_eq_true,
      bne_iff_ne, ne_eq] at h
    obtain ⟨hlen, hrest⟩ := h
    refine ⟨c, rfl, hlen, ?_⟩
    intro hd i hi
    have hall : e.nodes.all (fun ix => (sc_hash_lookup table ix).isSome)
        = true := by
      rcases hrest with hne | hall
      · exact absurd hd hne
      · exact hall
    have hmem : e.nodes.getD i 0 ∈ e.nodes := by
      have hi2 : i < e.nodes.length := hlen ▸ hi
      rw [List.getD_eq_getElem?_getD, List.getElem?_eq_getElem hi2]
      exact List.getElem_mem hi2
    exact List.all_eq_true.mp hall _ hmem

theorem elesLoop_step_match (table : NodeTable) (dim : Int) (e : EleDecl)
    (c : Eclass) (m : Nat) (rest : List Line) (tc : Int)
    (trees : List MshTree) (buf : Buf) (b : Buf)
    (hcls : gmshClassOf e.ty = some c)
    (hd : t8_eclass_to_dimension c = dim)
    (hlen : e.nodes.length = t8_eclass_num_vertices c)
    (hb : elementVertexLoop table c e.nodes buf (t8_eclass_num_vertices c)
        = some b) :
    elesLoop table dim (m + 1) (mkEleLine e :: rest) tc trees buf =
      elesLoop table dim m rest (tc + 1)
        (trees ++
          [⟨tc, c, (List.range (3 * t8_eclass_num_vertices c)).map b⟩]) b := by
  have hidx : readNodeIndices
      ((mkEleLine e).drop ((3 : Int) + (e.tags.length : Int)).toNat)
      (t8_eclass_num_vertices c) = .ok e.nodes := by
    rw [mkEleLine_drop, ← hlen]
    exact readNodeIndices_map e.nodes
  simp only [mkEleLine] at hidx ⊢
  simp only [elesLoop, hcls, if_pos hd, if_neg (mkEleLine_not_short e),
    mkEleLine] at hidx ⊢
  rw [hidx]
  simp only [processDimElement, hb]
  rw [if_neg (by
    simp only [List.length_cons, List.length_append, List.length_map]
    omega)]

theorem elesLoop_step_skip (table : NodeTable) (dim : Int) (e : EleDecl)
    (c : Eclass) (m : Nat) (rest : List Line) (tc : Int)
    (trees : List MshTree) (buf : Buf)
    (hcls : gmshClassOf e.ty = some c)
    (hd : ¬ t8_eclass_to_dimension c = dim) :
    elesLoop table dim (m + 1) (mkEleLine e :: rest) tc trees buf =
      elesLoop table dim m rest tc trees buf := by
  simp only [mkEleLine, elesLoop, hcls, if_neg hd]

theorem elesLoop_ok (table : NodeTable) (dim : Int) :
    ∀ (es : List EleDecl) (tc : Int) (trees : List MshTree) (buf : Buf),
      (∀ e ∈ es, goodEle table dim e = true) →
      ∃ ts, elesLoop table dim es.length (es.map mkEleLine) tc trees buf =
          .ok ⟨trees ++ ts, false⟩ ∧
        ts.length = es.countP (fun e => eleDim e == some dim) ∧
        ts.map MshTree.id =
          List.map (fun k : Nat => tc + (k : Int)) (List.range ts.length) := by
  intro es
  induction es with
  | nil =>
    intro tc trees buf _
    exact ⟨[], by simp [elesLoop], by simp, by simp⟩
  | cons e es2 ih =>
    intro tc trees buf hgood
    obtain ⟨c, hcls, hlen, hlook⟩ := goodEle_spec (hgood e (by simp))
    have hg2 : ∀ x ∈ es2, goodEle table dim x = true :=
      fun x hx => hgood x (List.mem_cons_of_mem e hx)
    by_cases hd : t8_eclass_to_dimension c = dim
    · obtain ⟨b, hb⟩ := elementVertexLoop_isSome table c e.nodes
        (t8_eclass_num_vertices c) buf (hlook hd)
      obtain ⟨ts2, hloop2, hcnt2, hids2⟩ :=
        ih (tc + 1)
          (trees ++
            [⟨tc, c, (List.range (3 * t8_eclass_num_vertices c)).map b⟩]) b
          hg2
      refine ⟨⟨tc, c, (List.range (3 * t8_eclass_num_vertices c)).map b⟩
          :: ts2, ?_, ?_, ?_⟩
      · rw [List.map_cons, List.length_cons,
          elesLoop_step_match table dim e c es2.length
            (es2.map mkEleLine) tc trees buf b hcls hd hlen hb, hloop2]
        simp
      · have hpred : (eleDim e == some dim) = true := by
          simp [eleDim, hcls, hd]
        simp [List.countP_cons, hpred, hcnt2]
      · rw [List.map_cons, hids2, List.length_cons,
          List.range_succ_eq_map, List.map_cons, List.map_map]
        congr 1
        · simp
        · apply List.map_congr_left
          intro k _
          simp only [Function.comp_apply]
          push_cast
          ring
    · obtain ⟨ts2, hloop2, hcnt2, hids2⟩ := ih tc trees buf hg2
      refine ⟨ts2, ?_, ?_, hids2⟩
      · rw [List.map_cons, List.length_cons,
          elesLoop_step_skip table dim e c es2.length
            (es2.map mkEleLine) tc trees buf hcls hd, hloop2]
      · have hpred : (eleDim e == some dim) = false := by
          simp only [eleDim, hcls, Option.map_some]
          simp [hd]
        simp [List.countP_cons, hpred, hcnt2]

/-- C3: for a well-formed element section, the build succeeds and
registers exactly one tree per element line whose class has the
requested dimension, regardless of interleaved elements of other
dimensions, and the registered trees carry the dense sequential
identifiers 0, 1, 2, ... in file order. -/
theorem read_eles_counts_matching_dimension
    (table : NodeTable) (dim : Int) (es : List EleDecl)
    (hgood : ∀ e ∈ es, goodEle table dim e = true) :
    ∃ cm, t8_cmesh_msh_file_read_eles
        ([.str "$Elements"] :: [.int (es.length : Int)] :: es.map mkEleLine)
        table dim = .ok cm ∧
      cm.trees.length = es.countP (fun e => eleDim e == some dim) ∧
      cm.trees.map MshTree.id =
        List.map (fun k : Nat => (k : Int)) (List.range cm.trees.length) := by
  obtain ⟨ts, hloop, hlen, hids⟩ := elesLoop_ok table dim es 0 [] initBuf hgood
  refine ⟨⟨ts, false⟩, ?_, hlen, ?_⟩
  · simp only [t8_cmesh_msh_file_read_eles, findSection, if_pos rfl,
      headIntToken, Int.toNat_natCast]
    simpa using hloop
  · simpa using hids

/-- Witness for read_eles_counts_matching_dimension: the node table
for nodes 1, 2, 3 and an element section declaring a line element
(dimension 1) followed by a triangle (dimension 2), ingested at
dimension 2: the line element is skipped and only the triangle
produces a tree. -/
theorem read_eles_counts_matching_dimension_witness :
    ∃ cm, t8_cmesh_msh_file_read_eles
        ([.str "$Elements"] ::
          [.int (([⟨1, 1, [], [1, 2]⟩, ⟨2, 2, [], [1, 2, 3]⟩] :
            List EleDecl).length : Int)] ::
          ([⟨1, 1, [], [1, 2]⟩, ⟨2, 2, [], [1, 2, 3]⟩] :
            List EleDecl).map mkEleLine)
        tableThreeNodes 2 = .ok cm ∧
      cm.trees.length = ([⟨1, 1, [], [1, 2]⟩, ⟨2, 2, [], [1, 2, 3]⟩] :
          List EleDecl).countP (fun e => eleDim e == some 2) ∧
      cm.trees.map MshTree.id =
        List.map (fun k : Nat => (k : Int)) (List.range cm.trees.length) :=
  read_eles_counts_matching_dimension tableThreeNodes 2
    [⟨1, 1, [], [1, 2]⟩, ⟨2, 2, [], [1, 2, 3]⟩] (by decide)

/-- C1 counterexample: for the quad permutation [0,1,3,2], tree vertex
slot 2 holds the coordinate triple of the node listed FOURTH in the
element's node-index list, not of the node listed third as the claim's
example states: processing a quad with nodes 1,2,3,4 (node k declared
with coordinates (10k, 10k+1, 10k+2)) yields slot-2 triple (40,41,42),
which differs from the third node's triple (30,31,32); the third node
lands at slot 3 = t8_vertex_num quad 2. -/
theorem quad_slot_two_holds_fourth_listed_node :
    (processDimElement
        ⟨4, [⟨1, (10, 11, 12)⟩, ⟨2, (20, 21, 22)⟩,
             ⟨3, (30, 31, 32)⟩, ⟨4, (40, 41, 42)⟩]⟩
        .quad [1, 2, 3, 4] initBuf 0).map
        (fun p => (p.1.vertices.getD (3 * 2) none,
          p.1.vertices.getD (3 * 2 + 1) none,
          p.1.vertices.getD (3 * 2 + 2) none)) =
      some (some 40, some 41, some 42) ∧
    (processDimElement
        ⟨4, [⟨1, (10, 11, 12)⟩, ⟨2, (20, 21, 22)⟩,
             ⟨3, (30, 31, 32)⟩, ⟨4, (40, 41, 42)⟩]⟩
        .quad [1, 2, 3, 4] initBuf 0).map
        (fun p => (p.1.vertices.getD (3 * 2) none,
          p.1.vertices.getD (3 * 2 + 1) none,
          p.1.vertices.getD (3 * 2 + 2) none)) ≠
      some (some 30, some 31, some 32) ∧
    sc_hash_lookup
        ⟨4, [⟨1, (10, 11, 12)⟩, ⟨2, (20, 21, 22)⟩,
             ⟨3, (30, 31, 32)⟩, ⟨4, (40, 41, 42)⟩]⟩ 3 =
      some ⟨3, (30, 31, 32)⟩ ∧
    t8_vertex_num .quad 2 = 3 := by
  refine ⟨by decide, by decide, by decide, by decide⟩
